import Mathlib

/-!
Verification development for the fastapi-ai-tools document-ingestion core:
session-authenticated URL discovery, page fetching, document cleaning,
image captioning and JSON serialization, as driven by the repository's
notebooks (src/_dev_nb/url_loader.ipynb and the web-image notebook in
src/unnamed/part_000).

The production service modules (SeticsLoader, SeticsDocumentCleaner,
WebImageLoader, DocumentJsonToolkit) are imported by the notebooks but are
not part of the visible sources; where a definition covers one of them it
is modelled from the specification and marked as such in its doc comment.
Data recorded in the sources (discovery outputs, document counts, the
1800-character caption prompt) is embedded verbatim and used as evidence.
-/

namespace FastapiAiTools

/-- A character-level check that string p is an initial segment of u.
Used as the scope-containment test described in the specification
("retain only links whose normalized form has base_url as a ..."). -/
def urlStartsWith (p u : String) : Bool :=
  p.data.isPrefixOf u.data

/-- Modelled from the spec: URL normalization for discovery
(SeticsLoader.discover_urls is not under the visible sources).
The spec asks to resolve links to absolute form, strip the fragment and
enforce a trailing-slash convention; links in the model are already
absolute, so normalization strips the fragment part (everything from the
first '#'). -/
def normalizeUrl (u : String) : String :=
  String.mk (u.data.takeWhile (fun c => c ≠ '#'))

/-- A static site: each page URL maps to the list of raw hyperlinks found
on that page (empty for pages that do not exist or are non-HTML). -/
structure Site where
  links : String → List String

/-- The in-scope child links of a page: raw links, normalized, retained
only when the base URL is an initial segment of the normalized form. -/
def childLinks (site : Site) (base : String) (page : String) : List String :=
  ((site.links page).map normalizeUrl).filter (fun v => urlStartsWith base v)

/-- Frontier update: fold candidate URLs into the visited set, collecting
the genuinely new ones as the next BFS level.  A candidate already in
`visited` is skipped, so no URL is ever fetched twice. -/
def insertNew (visited newLevel : List String) : List String → List String × List String
  | [] => (visited, newLevel)
  | v :: rest =>
    if v ∈ visited then insertNew visited newLevel rest
    else insertNew (v :: visited) (v :: newLevel) rest

/-- One BFS step: expand every page of the current level, normalize and
scope-filter its links, and merge the unseen ones into the frontier. -/
def crawlStep (site : Site) (base : String) (visited level : List String) :
    List String × List String :=
  insertNew visited [] (level.flatMap (childLinks site base))

/-- Depth-bounded BFS loop over (visited set, current level). -/
def discoverAux (site : Site) (base : String) : Nat → List String × List String → List String
  | 0, (visited, _) => visited
  | n + 1, (visited, level) => discoverAux site base n (crawlStep site base visited level)

/-- Modelled from the spec: SeticsLoader.discover_urls (UrlDiscoverer) is
not under the visible sources.  Breadth-first traversal from the base URL
bounded by max_depth (edges from the base count as depth 1), deduplicating
on the normalized URL string and returning the visited set. -/
def discover_urls (site : Site) (base : String) (maxDepth : Nat) : List String :=
  discoverAux site base maxDepth ([base], [base])

/-- The depth-1 scenario site of the specification: the base page links to
one in-scope and one out-of-scope URL. -/
def mockSite : Site :=
  ⟨fun u => if u = "https://x/en/" then ["https://x/en/a", "https://y/b"] else []⟩

/-- Base URL of the advanced-designer manual crawl, from the notebook. -/
def base_url_stad : String :=
  "https://docs.setics-sttar.com/advanced-designer-user-manual/2.3/en/"

/-- First ten entries of the recorded discovery output
setics_stad_urls.json for base URL base_url_stad, embedded verbatim from
the web-image notebook in the sources. -/
def setics_stad_urls_sample : List String :=
  [ "https://docs.setics-sttar.com/advanced-designer-user-manual/2.3/en/topic/topology"
  , "https://docs.setics-sttar.com/advanced-designer-user-manual/2.3/fr/topic/endpoint-support-context-menu"
  , "https://docs.setics-sttar.com/advanced-designer-user-manual/2.3/fr/topic/search-by-cost-effectiveness-using-actual-costs"
  , "https://docs.setics-sttar.com/advanced-designer-user-manual/2.3/en/topic/naming-rules-syntax"
  , "https://docs.setics-sttar.com/advanced-designer-user-manual/2.3/fr/topic/duct-assembly-datasheet"
  , "https://docs.setics-sttar.com/advanced-designer-user-manual/2.3/en/topic/cable-system-commands"
  , "https://docs.setics-sttar.com/advanced-designer-user-manual/2.3/fr/topic/splicing-plans-options"
  , "https://docs.setics-sttar.com/advanced-designer-user-manual/2.3/fr/topic/start-network-optimization"
  , "https://docs.setics-sttar.com/advanced-designer-user-manual/2.3/fr/topic/installing-a-workstation-license"
  , "https://docs.setics-sttar.com/advanced-designer-user-manual/2.3/en/topic/network-transmission-tree" ]

/-- The manual-version root: base_url_stad with the trailing locale
segment removed. -/
def manual_root : String :=
  "https://docs.setics-sttar.com/advanced-designer-user-manual/2.3/"

/-- The scenario site with the base page's links listed in the opposite
order, modelling a re-run whose responses arrive in a different order. -/
def mockSiteRev : Site :=
  ⟨fun u => if u = "https://x/en/" then ["https://y/b", "https://x/en/a"] else []⟩

/-- URLs reachable from the base by a link path of length at most n, where
each hop follows a raw hyperlink and takes its normalized form. -/
def reachableWithin (site : Site) (base : String) : Nat → List String
  | 0 => [base]
  | n + 1 =>
    reachableWithin site base n ++
      (reachableWithin site base n).flatMap (fun p => (site.links p).map normalizeUrl)

theorem mem_insertNew_fst (u : String) :
    ∀ (cands visited newLevel : List String),
      u ∈ (insertNew visited newLevel cands).1 ↔ u ∈ visited ∨ u ∈ cands := by
  intro cands
  induction cands with
  | nil =>
    intro visited newLevel
    simp [insertNew]
  | cons v rest ih =>
    intro visited newLevel
    by_cases hv : v ∈ visited
    · rw [insertNew, if_pos hv, ih]
      constructor
      · rintro (h | h)
        · exact Or.inl h
        · exact Or.inr (List.mem_cons_of_mem _ h)
      · rintro (h | h)
        · exact Or.inl h
        · rcases List.mem_cons.mp h with rfl | h2
          · exact Or.inl hv
          · exact Or.inr h2
    · rw [insertNew, if_neg hv, ih]
      simp only [List.mem_cons]
      tauto

theorem mem_insertNew_snd (u : String) :
    ∀ (cands visited newLevel : List String),
      u ∈ (insertNew visited newLevel cands).2 ↔
        u ∈ newLevel ∨ (u ∈ cands ∧ u ∉ visited) := by
  intro cands
  induction cands with
  | nil =>
    intro visited newLevel
    simp [insertNew]
  | cons v rest ih =>
    intro visited newLevel
    by_cases hv : v ∈ visited
    · rw [insertNew, if_pos hv, ih]
      simp only [List.mem_cons]
      constructor
      · rintro (h | h)
        · exact Or.inl h
        · exact Or.inr ⟨Or.inr h.1, h.2⟩
      · rintro (h | ⟨rfl | h2, hnv⟩)
        · exact Or.inl h
        · exact absurd hv hnv
        · exact Or.inr ⟨h2, hnv⟩
    · rw [insertNew, if_neg hv, ih]
      simp only [List.mem_cons]
      by_cases hu : u = v
      · subst hu
        simp [hv]
      · constructor
        · rintro (h | h)
          · rcases h with rfl | h
            · exact absurd rfl hu
            · exact Or.inl h
          · rcases h with ⟨h1, h2⟩
            have : u ∉ visited := fun hm => h2 (Or.inr hm)
            exact Or.inr ⟨Or.inr h1, this⟩
        · rintro (h | ⟨h1, h2⟩)
          · exact Or.inl (Or.inr h)
          · rcases h1 with rfl | h1
            · exact absurd rfl hu
            · exact Or.inr ⟨h1, fun hm => by
                rcases hm with rfl | hm
                · exact hu rfl
                · exact h2 hm⟩

theorem nodup_insertNew_fst :
    ∀ (cands visited newLevel : List String), visited.Nodup →
      (insertNew visited newLevel cands).1.Nodup := by
  intro cands
  induction cands with
  | nil =>
    intro visited newLevel h
    simpa [insertNew] using h
  | cons v rest ih =>
    intro visited newLevel h
    by_cases hv : v ∈ visited
    · rw [insertNew, if_pos hv]
      exact ih _ _ h
    · rw [insertNew, if_neg hv]
      exact ih _ _ (List.nodup_cons.mpr ⟨hv, h⟩)

theorem mem_crawlStep_fst (site : Site) (base : String) (visited level : List String)
    (u : String) :
    u ∈ (crawlStep site base visited level).1 ↔
      u ∈ visited ∨ u ∈ level.flatMap (childLinks site base) := by
  rw [crawlStep, mem_insertNew_fst]

theorem mem_crawlStep_snd (site : Site) (base : String) (visited level : List String)
    (u : String) :
    u ∈ (crawlStep site base visited level).2 ↔
      u ∈ level.flatMap (childLinks site base) ∧ u ∉ visited := by
  rw [crawlStep, mem_insertNew_snd]
  simp

theorem reachableWithin_succ_subset (site : Site) (base : String) (n : Nat) (u : String)
    (h : u ∈ reachableWithin site base n) : u ∈ reachableWithin site base (n + 1) := by
  rw [reachableWithin]
  exact List.mem_append_left _ h

theorem reachableWithin_step (site : Site) (base : String) (n : Nat) (p v : String)
    (hp : p ∈ reachableWithin site base n) (hv : v ∈ childLinks site base p) :
    v ∈ reachableWithin site base (n + 1) := by
  rw [reachableWithin]
  refine List.mem_append_right _ ?_
  rw [List.mem_flatMap]
  exact ⟨p, hp, (List.mem_filter.mp hv).1⟩

theorem discoverAux_sound (site : Site) (base : String) :
    ∀ (n : Nat) (visited level : List String) (k : Nat),
      (∀ u ∈ visited, u ∈ reachableWithin site base k) →
      (∀ u ∈ level, u ∈ reachableWithin site base k) →
      ∀ u ∈ discoverAux site base n (visited, level), u ∈ reachableWithin site base (k + n) := by
  intro n
  induction n with
  | zero =>
    intro visited level k hv _ u hu
    exact hv u (by simpa [discoverAux] using hu)
  | succ m ih =>
    intro visited level k hv hl u hu
    rcases hstep : crawlStep site base visited level with ⟨v2, l2⟩
    rw [discoverAux, hstep] at hu
    have hcands : ∀ w ∈ level.flatMap (childLinks site base),
        w ∈ reachableWithin site base (k + 1) := by
      intro w hw
      rcases List.mem_flatMap.mp hw with ⟨p, hp, hw2⟩
      exact reachableWithin_step site base k p w (hl p hp) hw2
    have hv2 : ∀ w ∈ v2, w ∈ reachableWithin site base (k + 1) := by
      intro w hw
      have hm : w ∈ (crawlStep site base visited level).1 := by rw [hstep]; exact hw
      rcases (mem_crawlStep_fst site base visited level w).mp hm with h | h
      · exact reachableWithin_succ_subset site base k w (hv w h)
      · exact hcands w h
    have hl2 : ∀ w ∈ l2, w ∈ reachableWithin site base (k + 1) := by
      intro w hw
      have hm : w ∈ (crawlStep site base visited level).2 := by rw [hstep]; exact hw
      exact hcands w ((mem_crawlStep_snd site base visited level w).mp hm).1
    have hres := ih v2 l2 (k + 1) hv2 hl2 u hu
    have : k + 1 + m = k + (m + 1) := by omega
    rwa [this] at hres

theorem discoverAux_nodup (site : Site) (base : String) :
    ∀ (n : Nat) (visited level : List String), visited.Nodup →
      (discoverAux site base n (visited, level)).Nodup := by
  intro n
  induction n with
  | zero =>
    intro visited level h
    simpa [discoverAux] using h
  | succ m ih =>
    intro visited level h
    rcases hstep : crawlStep site base visited level with ⟨v2, l2⟩
    rw [discoverAux, hstep]
    have h2 : (insertNew visited [] (level.flatMap (childLinks site base))).1.Nodup :=
      nodup_insertNew_fst _ visited [] h
    rw [crawlStep] at hstep
    rw [hstep] at h2
    exact ih v2 l2 h2

theorem mem_childLinks_congr (site1 site2 : Site) (base p : String)
    (h : ∀ q u, u ∈ site1.links q ↔ u ∈ site2.links q) (u : String) :
    u ∈ childLinks site1 base p ↔ u ∈ childLinks site2 base p := by
  simp only [childLinks, List.mem_filter, List.mem_map]
  constructor
  · rintro ⟨⟨raw, hraw, rfl⟩, hpref⟩
    exact ⟨⟨raw, (h p raw).mp hraw, rfl⟩, hpref⟩
  · rintro ⟨⟨raw, hraw, rfl⟩, hpref⟩
    exact ⟨⟨raw, (h p raw).mpr hraw, rfl⟩, hpref⟩

theorem mem_discoverAux_congr (site1 site2 : Site) (base : String)
    (h : ∀ q u, u ∈ site1.links q ↔ u ∈ site2.links q) :
    ∀ (n : Nat) (v1 l1 v2 l2 : List String),
      (∀ u, u ∈ v1 ↔ u ∈ v2) → (∀ u, u ∈ l1 ↔ u ∈ l2) →
      ∀ u, u ∈ discoverAux site1 base n (v1, l1) ↔ u ∈ discoverAux site2 base n (v2, l2) := by
  intro n
  induction n with
  | zero =>
    intro v1 l1 v2 l2 hv _ u
    simpa [discoverAux] using hv u
  | succ m ih =>
    intro v1 l1 v2 l2 hv hl u
    rcases h1 : crawlStep site1 base v1 l1 with ⟨a1, b1⟩
    rcases h2 : crawlStep site2 base v2 l2 with ⟨a2, b2⟩
    rw [discoverAux, h1, discoverAux, h2]
    have hcand : ∀ w, w ∈ l1.flatMap (childLinks site1 base) ↔
        w ∈ l2.flatMap (childLinks site2 base) := by
      intro w
      simp only [List.mem_flatMap]
      constructor
      · rintro ⟨p, hp, hw⟩
        exact ⟨p, (hl p).mp hp, (mem_childLinks_congr site1 site2 base p h w).mp hw⟩
      · rintro ⟨p, hp, hw⟩
        exact ⟨p, (hl p).mpr hp, (mem_childLinks_congr site1 site2 base p h w).mpr hw⟩
    apply ih
    · intro w
      have e1 : a1 = (crawlStep site1 base v1 l1).1 := by rw [h1]
      have e2 : a2 = (crawlStep site2 base v2 l2).1 := by rw [h2]
      rw [e1, e2, mem_crawlStep_fst, mem_crawlStep_fst]
      exact or_congr (hv w) (hcand w)
    · intro w
      have e1 : b1 = (crawlStep site1 base v1 l1).2 := by rw [h1]
      have e2 : b2 = (crawlStep site2 base v2 l2).2 := by rw [h2]
      rw [e1, e2, mem_crawlStep_snd, mem_crawlStep_snd]
      exact and_congr (hcand w) (not_congr (hv w))

/-- C1 counterexample: the recorded discovery output for base URL
base_url_stad (an /en/ base) contains URLs that do not have the base URL
as an initial segment — the /fr/ locale siblings — so discovery does not
return only URLs with the base URL as an initial segment. -/
theorem discovery_scope_counterexample :
    setics_stad_urls_sample.all (fun u => urlStartsWith base_url_stad u) = false := by
  decide

/-- C1 (amended): scope containment holds only up to the manual-version
root: every URL in the recorded discovery output extends manual_root (the
base URL with its locale segment removed), and the strict-in-scope
modelled discoverer on the scenario site at depth 1 returns exactly the
base URL and the in-scope link. -/
theorem discovery_scope_amended :
    setics_stad_urls_sample.all (fun u => urlStartsWith manual_root u) = true ∧
      discover_urls mockSite "https://x/en/" 1 = ["https://x/en/a", "https://x/en/"] := by
  exact ⟨by decide, by decide⟩

/-- C3: every URL in the discovery result is reachable from the base URL
by a link path of length at most max_depth, and the result has no
duplicates (deduplication on the normalized URL string). -/
theorem discover_urls_depth_bounded_nodup (site : Site) (base : String) (d : Nat) :
    (∀ u ∈ discover_urls site base d, u ∈ reachableWithin site base d) ∧
      (discover_urls site base d).Nodup := by
  constructor
  · intro u hu
    have h0 : ∀ w ∈ [base], w ∈ reachableWithin site base 0 := by
      intro w hw
      simpa [reachableWithin] using hw
    have hres := discoverAux_sound site base d [base] [base] 0 h0 h0 u hu
    rwa [Nat.zero_add] at hres
  · exact discoverAux_nodup site base d [base] [base] (List.nodup_singleton base)

/-- Witness for C3 at the scenario site: the discovered in-scope link is
reachable within one hop, and the concrete result is duplicate-free. -/
theorem discover_urls_depth_bounded_nodup_witness :
    "https://x/en/a" ∈ reachableWithin mockSite "https://x/en/" 1 ∧
      (discover_urls mockSite "https://x/en/" 1).Nodup :=
  ⟨(discover_urls_depth_bounded_nodup mockSite "https://x/en/" 1).1 "https://x/en/a" (by decide),
   (discover_urls_depth_bounded_nodup mockSite "https://x/en/" 1).2⟩

/-- C9: discovery on a static site is idempotent at the level of the URL
set — two runs whose responses carry the same links per page (possibly
presented in a different order, as concurrent fetch completion may do)
discover exactly the same set of URLs. -/
theorem discover_urls_set_deterministic (site1 site2 : Site) (base : String) (d : Nat)
    (h : ∀ q u, u ∈ site1.links q ↔ u ∈ site2.links q) (u : String) :
    u ∈ discover_urls site1 base d ↔ u ∈ discover_urls site2 base d :=
  mem_discoverAux_congr site1 site2 base h d [base] [base] [base] [base]
    (fun _ => Iff.rfl) (fun _ => Iff.rfl) u

/-- Witness for C9: the scenario site and its link-order-reversed variant
agree on membership of the in-scope link. -/
theorem discover_urls_set_deterministic_witness :
    ("https://x/en/a" ∈ discover_urls mockSite "https://x/en/" 1) ↔
      ("https://x/en/a" ∈ discover_urls mockSiteRev "https://x/en/" 1) :=
  discover_urls_set_deterministic mockSite mockSiteRev "https://x/en/" 1
    (fun q u => by
      by_cases hq : q = "https://x/en/"
      · simp only [mockSite, mockSiteRev, hq, if_pos, List.mem_cons]
        tauto
      · simp [mockSite, mockSiteRev, hq])
    "https://x/en/a"

/-- Document kind: the closed set of variants produced by the pipeline
(page documents from the cleaner, image documents from the captioner). -/
inductive DocKind where
  | page
  | image
deriving DecidableEq

/-- Document metadata: source URL, title, language, fetch timestamp,
kind, and the optional image-reference fields carried when the kind is
image (image URL, alt text, surrounding context). -/
structure DocMetadata where
  source : String
  title : String
  language : String
  timestamp : String
  kind : DocKind
  imageUrl : Option String
  imageAlt : Option String
  imageContext : Option String
deriving DecidableEq

/-- A pipeline document: textual content plus its metadata. -/
structure Document where
  content : String
  metadata : DocMetadata
deriving DecidableEq

/-- The persisted JSON representation: null, string, array, object. -/
inductive Json where
  | jnull
  | jstr (s : String)
  | jarr (items : List Json)
  | jobj (fields : List (String × Json))

def kindToJson : DocKind → Json
  | .page => .jstr "page"
  | .image => .jstr "image"

def jsonToKind : Json → Option DocKind
  | .jstr "page" => some .page
  | .jstr "image" => some .image
  | _ => none

def optStrToJson : Option String → Json
  | none => .jnull
  | some s => .jstr s

def jsonToOptStr : Json → Option (Option String)
  | .jnull => some none
  | .jstr s => some (some s)
  | _ => none

def metadataToJson (m : DocMetadata) : Json :=
  .jobj [ ("source", .jstr m.source)
        , ("title", .jstr m.title)
        , ("language", .jstr m.language)
        , ("timestamp", .jstr m.timestamp)
        , ("kind", kindToJson m.kind)
        , ("image_url", optStrToJson m.imageUrl)
        , ("image_alt", optStrToJson m.imageAlt)
        , ("image_context", optStrToJson m.imageContext) ]

def jsonToMetadata : Json → Option DocMetadata
  | .jobj [ ("source", .jstr source)
          , ("title", .jstr title)
          , ("language", .jstr language)
          , ("timestamp", .jstr timestamp)
          , ("kind", k)
          , ("image_url", iu)
          , ("image_alt", ia)
          , ("image_context", ic) ] =>
    match jsonToKind k, jsonToOptStr iu, jsonToOptStr ia, jsonToOptStr ic with
    | some kind, some imageUrl, some imageAlt, some imageContext =>
      some ⟨source, title, language, timestamp, kind, imageUrl, imageAlt, imageContext⟩
    | _, _, _, _ => none
  | _ => none

def documentToJson (d : Document) : Json :=
  .jobj [("content", .jstr d.content), ("metadata", metadataToJson d.metadata)]

def jsonToDocument : Json → Option Document
  | .jobj [("content", .jstr content), ("metadata", m)] =>
    match jsonToMetadata m with
    | some metadata => some ⟨content, metadata⟩
    | none => none
  | _ => none

/-- Modelled from the spec: documents_to_json (DocumentStore.save,
DocumentJsonToolkit) is not under the visible sources.  Serializes the
document sequence to a JSON array preserving content and full metadata. -/
def documents_to_json (docs : List Document) : Json :=
  .jarr (docs.map documentToJson)

/-- Modelled from the spec: json_to_documents (DocumentStore.load,
DocumentJsonToolkit) is not under the visible sources.  The exact inverse
of documents_to_json on its image. -/
def json_to_documents : Json → Option (List Document)
  | .jarr items => items.mapM jsonToDocument
  | _ => none

theorem jsonToMetadata_metadataToJson (m : DocMetadata) :
    jsonToMetadata (metadataToJson m) = some m := by
  rcases m with ⟨source, title, language, timestamp, kind, iu, ia, ic⟩
  cases kind <;> cases iu <;> cases ia <;> cases ic <;> rfl

theorem jsonToDocument_documentToJson (d : Document) :
    jsonToDocument (documentToJson d) = some d := by
  rcases d with ⟨content, m⟩
  rw [documentToJson, jsonToDocument, jsonToMetadata_metadataToJson]

/-- C5: the DocumentStore round-trip is the identity — serializing any
document list (empty, singleton, or mixing page and image kinds) and
deserializing it back returns exactly the same contents and metadata. -/
theorem documents_json_round_trip (docs : List Document) :
    json_to_documents (documents_to_json docs) = some docs := by
  rw [documents_to_json, json_to_documents]
  induction docs with
  | nil => rfl
  | cons d rest ih =>
    rw [List.map_cons, List.mapM_cons, jsonToDocument_documentToJson, ih]
    rfl

/-- Split a character list into maximal whitespace-free words; `cur`
holds the characters of the word currently being read, in reverse. -/
def splitWordsAux (cur : List Char) : List Char → List String
  | [] => if cur.isEmpty then [] else [String.mk cur.reverse]
  | c :: rest =>
    if c.isWhitespace then
      if cur.isEmpty then splitWordsAux [] rest
      else String.mk cur.reverse :: splitWordsAux [] rest
    else splitWordsAux (c :: cur) rest

/-- Modelled from the spec: the per-document content normalization of
SeticsDocumentCleaner (not under the visible sources): collapse redundant
whitespace into single spaces, preserving token order. -/
def clean_text (s : String) : String :=
  String.intercalate " " (splitWordsAux [] s.data)

/-- Modelled from the spec: cleaning one document produces a new document
with normalized content and unchanged metadata (no in-place mutation). -/
def clean_document (d : Document) : Document :=
  { d with content := clean_text d.content }

/-- Modelled from the spec: SeticsDocumentCleaner.clean_documents is not
under the visible sources.  A 1:1 structural transform of the input list:
each document is cleaned independently and none is dropped, so a document
whose content becomes empty is kept as an empty-content record. -/
def clean_documents (docs : List Document) : List Document :=
  docs.map clean_document

/-- C4: cleaning preserves length for every input list — including lists
whose documents all have empty content — and keeps each document in its
position: position i of the output is the cleaning of position i of the
input (so a document whose content becomes empty is preserved as an
empty-content record, never elided). -/
theorem clean_documents_length (docs : List Document) :
    (clean_documents docs).length = docs.length ∧
      ∀ i : Nat, (clean_documents docs)[i]? = docs[i]?.map clean_document := by
  constructor
  · exact List.length_map docs clean_document
  · intro i
    exact List.getElem?_map clean_document docs i

/-- Binary image payload, as a byte list. -/
abbrev ImageData := List UInt8

/-- An image reference: the image URL plus the contextual metadata the
extractor recorded (originating page, alt text). -/
structure ImageRef where
  url : String
  page : String
  alt : String
deriving DecidableEq

/-- Outcome of one image download: an HTTP response with a status code
and payload, or a raised exception with its message. -/
inductive DownloadOutcome where
  | resp (status : Nat) (data : ImageData)
  | exn (msg : String)
deriving DecidableEq

/-- The hard output-length ceiling of the captioning prompt, in
characters, embedded from the prompt template in the sources ("You MUST
ensure that your final output is contained within 1800 characters."). -/
def captionCeiling : Nat := 1800

/-- The per-image operation download_and_parse_image from the web-image
notebook in the sources: download the image; on a non-200 status return
None; on success wrap the payload as a blob and run the vision-model
parser, returning its first document; on any raised exception return
None.  The download outcome and the parser are passed explicitly, so the
function is total at its interface. -/
def download_and_parse_image (fetch : DownloadOutcome)
    (parse : ImageData → Except String Document) : Option Document :=
  match fetch with
  | .exn _ => none
  | .resp status data =>
    if status = 200 then
      match parse data with
      | .ok doc => some doc
      | .error _ => none
    else none

/-- Modelled from the spec: WebImageLoader.download_and_parse_images (the
caption_many batch) is not under the visible sources.  Applies the
per-image operation to each reference; an image whose processing yields
no document is skipped and recorded in the failure list rather than
aborting the batch. -/
def download_and_parse_images (fetch : ImageRef → DownloadOutcome)
    (parse : ImageRef → ImageData → Except String Document) (refs : List ImageRef) :
    List Document × List ImageRef :=
  (refs.filterMap (fun r => download_and_parse_image (fetch r) (parse r)),
   refs.filter (fun r => (download_and_parse_image (fetch r) (parse r)).isNone))

/-- An image-kind metadata sample used for concrete checks. -/
def imageMeta : DocMetadata :=
  ⟨"https://x/en/", "diagram", "en", "2025-03-01T00:00:00Z", .image,
   some "https://x/assets/d.png", some "diagram", some "Topology"⟩

/-- An over-length model output: 1801 characters, one above the ceiling. -/
def overLongDoc : Document := ⟨String.mk (List.replicate 1801 'a'), imageMeta⟩

/-- C2 counterexample: with a successful download and a model response
one character over the ceiling, the caption batch emits a Document whose
content length exceeds the configured character ceiling — the caller
performs no defensive truncation.  (The reference list of the batch is
declared below; forward references are avoided by inlining it.) -/
theorem caption_ceiling_counterexample :
    (download_and_parse_images (fun _ => .resp 200 [])
        (fun _ _ => .ok overLongDoc) [⟨"https://x/assets/a.png", "https://x/en/", "a"⟩]).1 =
      [overLongDoc] ∧ captionCeiling < overLongDoc.content.length := by
  refine ⟨rfl, ?_⟩
  have h : overLongDoc.content.length = 1801 := by
    show (List.replicate 1801 'a').length = 1801
    exact List.length_replicate 1801 'a'
  rw [h]
  decide

/-- C2 (amended): the caption pipeline performs no caller-side
truncation: whenever the download succeeds and the model parser returns a
document, that document is emitted with its content exactly as the model
produced it, so the character ceiling is respected only when the model
honors the length instruction. -/
theorem caption_content_unmodified (data : ImageData)
    (parse : ImageData → Except String Document) (doc : Document)
    (h : parse data = .ok doc) :
    download_and_parse_image (.resp 200 data) parse = some doc := by
  rw [download_and_parse_image, if_pos rfl, h]

/-- Witness for C2 (amended) at a concrete parser output. -/
theorem caption_content_unmodified_witness :
    download_and_parse_image (.resp 200 []) (fun _ => .ok ⟨"caption", imageMeta⟩) =
      some ⟨"caption", imageMeta⟩ :=
  caption_content_unmodified [] (fun _ => .ok ⟨"caption", imageMeta⟩) ⟨"caption", imageMeta⟩ rfl

/-- C10: the per-image operation is total at its interface — a raised
exception or a non-200 download status yields None, and a Document is
produced only when the download returned status 200 and the model parse
succeeded on the downloaded payload. -/
theorem download_and_parse_image_total (fetch : DownloadOutcome)
    (parse : ImageData → Except String Document) :
    (∀ msg, fetch = .exn msg → download_and_parse_image fetch parse = none) ∧
      (∀ status data, fetch = .resp status data → status ≠ 200 →
        download_and_parse_image fetch parse = none) ∧
      (∀ doc, download_and_parse_image fetch parse = some doc →
        ∃ data, fetch = .resp 200 data ∧ parse data = .ok doc) := by
  refine ⟨?_, ?_, ?_⟩
  · rintro msg rfl
    rfl
  · rintro status data rfl hne
    rw [download_and_parse_image, if_neg hne]
  · intro doc hdoc
    cases fetch with
    | exn msg => simp [download_and_parse_image] at hdoc
    | resp status data =>
      by_cases hs : status = 200
      · subst hs
        rcases hp : parse data with e | d
        · simp [download_and_parse_image, hp] at hdoc
        · simp [download_and_parse_image, hp] at hdoc
          exact ⟨data, rfl, by rw [hp, hdoc]⟩
      · simp [download_and_parse_image, hs] at hdoc

/-- A concrete always-succeeding model parser used for witnesses. -/
def okCaptionParse : ImageData → Except String Document :=
  fun _ => .ok ⟨"caption", imageMeta⟩

/-- Witness for C10: a raised exception and a 500-status download each
yield no document. -/
theorem download_and_parse_image_total_witness :
    download_and_parse_image (.exn "boom") okCaptionParse = none ∧
      download_and_parse_image (.resp 500 []) okCaptionParse = none :=
  ⟨(download_and_parse_image_total (.exn "boom") okCaptionParse).1 "boom" rfl,
   (download_and_parse_image_total (.resp 500 []) okCaptionParse).2.1
    500 [] rfl (by decide)⟩

theorem length_filterMap_add_length_filter_isNone {α β : Type} (f : α → Option β)
    (l : List α) :
    (l.filterMap f).length + (l.filter (fun a => (f a).isNone)).length = l.length := by
  induction l with
  | nil => rfl
  | cons a rest ih =>
    rcases hf : f a with _ | b
    · rw [List.filterMap_cons_none hf, List.filter_cons_of_pos (by simp [hf])]
      simp only [List.length_cons]
      omega
    · rw [List.filterMap_cons_some hf, List.filter_cons_of_neg (by simp [hf])]
      simp only [List.length_cons]
      omega

/-- Image references used for concrete checks. -/
def ref1 : ImageRef := ⟨"https://x/assets/a.png", "https://x/en/", "a"⟩

def ref2 : ImageRef := ⟨"https://x/assets/b.png", "https://x/en/", "b"⟩

/-- A download environment where the second image's download fails. -/
def twoRefFetch : ImageRef → DownloadOutcome :=
  fun r => if r.url = "https://x/assets/b.png" then .resp 404 [] else .resp 200 []

/-- C6: the caption batch follows the partial-success policy — for every
environment and input, the documents produced plus the recorded failures
account exactly for the inputs, so the output document count never
exceeds the input count; and on a batch whose second download fails the
output is strictly smaller, with the failed reference recorded. -/
theorem download_and_parse_images_partial_success :
    (∀ (fetch : ImageRef → DownloadOutcome)
        (parse : ImageRef → ImageData → Except String Document) (refs : List ImageRef),
      (download_and_parse_images fetch parse refs).1.length +
          (download_and_parse_images fetch parse refs).2.length = refs.length ∧
        (download_and_parse_images fetch parse refs).1.length ≤ refs.length) ∧
      ((download_and_parse_images twoRefFetch (fun _ => okCaptionParse) [ref1, ref2]).1.length = 1 ∧
        (download_and_parse_images twoRefFetch (fun _ => okCaptionParse) [ref1, ref2]).2 = [ref2]) := by
  constructor
  · intro fetch parse refs
    have h2 : (download_and_parse_images fetch parse refs).1.length +
        (download_and_parse_images fetch parse refs).2.length = refs.length :=
      length_filterMap_add_length_filter_isNone
        (fun r => download_and_parse_image (fetch r) (parse r)) refs
    exact ⟨h2, by omega⟩
  · exact ⟨by decide, by decide⟩

/-- Per-request response of the target server: a body, an HTTP status, a
connection reset, or a timeout. -/
inductive FetchResp where
  | ok (body : String)
  | status (code : Nat)
  | reset
  | timeout
deriving DecidableEq

/-- Terminal fetch failure kinds. -/
inductive FetchErrorKind where
  | http (code : Nat)
  | reset
  | timeout
deriving DecidableEq

/-- A per-URL terminal fetch failure. -/
structure FetchError where
  kind : FetchErrorKind
  url : String
deriving DecidableEq

/-- Transient responses are retried: connection reset, 5xx, timeout. -/
def isTransient : FetchResp → Bool
  | .ok _ => false
  | .status code => decide (500 ≤ code)
  | .reset => true
  | .timeout => true

/-- Turn a terminal response into the per-URL outcome. -/
def classifyResp (url : String) : FetchResp → Except FetchError String
  | .ok body => .ok body
  | .status code => .error ⟨.http code, url⟩
  | .reset => .error ⟨.reset, url⟩
  | .timeout => .error ⟨.timeout, url⟩

/-- Modelled from the spec: PageFetcher's per-URL retry loop is not under
the visible sources.  The response oracle gives the server's response to
each attempt; transient failures are retried while attempts remain, and
the last response is classified as the terminal outcome. -/
def fetchRetry (resp : Nat → FetchResp) (url : String) : Nat → Nat → Except FetchError String
  | _, 0 => .error ⟨.timeout, url⟩
  | attempt, fuel + 1 =>
    let r := resp attempt
    if isTransient r && decide (0 < fuel) then fetchRetry resp url (attempt + 1) fuel
    else classifyResp url r

/-- The bounded number of attempts per URL. -/
def maxAttempts : Nat := 3

/-- Modelled from the spec: PageFetcher.fetch_many is not under the
visible sources.  One authenticated GET (with bounded retries) per URL,
returning the per-URL outcome paired with its URL; a failing URL yields
its own FetchError and never aborts the batch. -/
def fetch_many (resp : String → Nat → FetchResp) (urls : List String) :
    List (String × Except FetchError String) :=
  urls.map (fun u => (u, fetchRetry (resp u) u 0 maxAttempts))

/-- The scenario server: the second URL always answers 500, the others
answer with their bodies. -/
def scenarioResp : String → Nat → FetchResp :=
  fun u _ =>
    if u = "https://s/2" then .status 500
    else if u = "https://s/1" then .ok "body1"
    else .ok "body3"

/-- C7: fetch_many pairs every input URL with its own outcome (so one
failing URL never aborts the batch), and on 3 URLs of which one always
answers 500 it returns 2 successful bodies and 1 FetchError. -/
theorem fetch_many_per_url_outcome :
    (∀ (resp : String → Nat → FetchResp) (urls : List String),
      (fetch_many resp urls).map Prod.fst = urls) ∧
      fetch_many scenarioResp ["https://s/1", "https://s/2", "https://s/3"] =
        [("https://s/1", .ok "body1"),
         ("https://s/2", .error ⟨.http 500, "https://s/2"⟩),
         ("https://s/3", .ok "body3")] := by
  constructor
  · intro resp urls
    simp [fetch_many, List.map_map, Function.comp_def]
  · rfl

/-- The error taxonomy of session establishment. -/
inductive AuthErrorKind where
  | invalidCredentials
  | verificationFailed
deriving DecidableEq

/-- An authenticated session handle. -/
structure Session where
  token : String
deriving DecidableEq

/-- The login endpoint's view: the credential pair it accepts and whether
the protected check URL resolves as authorized for a fresh session. -/
structure AuthServer where
  validUser : String
  validPassword : String
  checkOk : Bool

/-- Modelled from the spec: AuthSession.create (SeticsLoader.authenticate,
WebImageLoader.create_protected_loader) is not under the visible sources.
A rejected login yields AuthError(InvalidCredentials); a login that
succeeds but whose check URL still resolves to a login page yields
AuthError(VerificationFailed); otherwise the session is returned. -/
def authenticate (srv : AuthServer) (username password : String) :
    Except AuthErrorKind Session :=
  if username = srv.validUser ∧ password = srv.validPassword then
    if srv.checkOk then .ok ⟨"session-" ++ username⟩ else .error .verificationFailed
  else .error .invalidCredentials

/-- Modelled from the spec: the notebook driver — authenticate first, and
only on success run discovery and fetching.  The second component counts
the discovery/fetch network calls issued after the authentication step
(one fetch per discovered URL). -/
def crawl_pipeline (srv : AuthServer) (site : Site) (username password base : String)
    (maxDepth : Nat) : Except AuthErrorKind (List String) × Nat :=
  match authenticate srv username password with
  | .error e => (.error e, 0)
  | .ok _ => (.ok (discover_urls site base maxDepth), (discover_urls site base maxDepth).length)

/-- C8: with wrong credentials the session constructor returns
AuthError(InvalidCredentials) rather than a session, and the caller
issues zero further discovery or fetch network calls. -/
theorem auth_failure_stops_pipeline (srv : AuthServer) (site : Site)
    (username password base : String) (maxDepth : Nat)
    (h : ¬ (username = srv.validUser ∧ password = srv.validPassword)) :
    crawl_pipeline srv site username password base maxDepth =
      (.error .invalidCredentials, 0) := by
  simp [crawl_pipeline, authenticate, h]

/-- The concrete login endpoint used for the C8 witness. -/
def demoServer : AuthServer := ⟨"admin", "hunter2", true⟩

/-- Witness for C8 at concrete wrong credentials. -/
theorem auth_failure_stops_pipeline_witness :
    crawl_pipeline demoServer mockSite "admin" "wrong" "https://x/en/" 1 =
      (.error .invalidCredentials, 0) :=
  auth_failure_stops_pipeline demoServer mockSite "admin" "wrong" "https://x/en/" 1
    (by decide)

end FastapiAiTools
